import Mathlib

/-!
Verification development for the mauve labeled object store
(crates `backend`, `macros`).

Shallow embedding conventions:
* Rust `String` / `&str` become `Str := List Char`; raw key/value bytes
  become `List Nat` (each entry `< 256` where it matters).
* `sled::Tree` state is modelled either as a lookup function
  (`Str -> Option v`) for point operations, or as an ascending
  association list for iteration-order claims.
* Fallible operations return `Except MauveError _` or carry the
  post-state explicitly.
-/

namespace Mauve

/-- Rust `String`/`&str` modelled as a list of characters. -/
abbrev Str := List Char

/-- From `u8::to_ascii_lowercase`: only ASCII `A`..`Z` are mapped. -/
def asciiLowerChar (c : Char) : Char :=
  if 'A' ≤ c ∧ c ≤ 'Z' then Char.ofNat (c.toNat + 32) else c

/-- From `str::to_ascii_lowercase`. -/
def asciiLower (s : Str) : Str := s.map asciiLowerChar

/-- From `str::split_once(sep)`: split at the first occurrence of `sep`;
`none` when `sep` does not occur. -/
def splitOnce (sep : Char) : Str → Option (Str × Str)
  | [] => none
  | x :: xs =>
    if x = sep then some ([], xs)
    else (splitOnce sep xs).map (fun p => (x :: p.1, p.2))

/-- From `labels.rs`: `Label { name, value }`. -/
structure Label where
  name : Str
  value : Str
deriving DecidableEq, Repr

/-- From `Label::new`: lowercases both fields. -/
def Label.new (name value : Str) : Label :=
  ⟨asciiLower name, asciiLower value⟩

/-- From `Label::to_fwd`: `"{name}={value}"`. -/
def Label.to_fwd (l : Label) : Str := l.name ++ '=' :: l.value

/-- From `Label::to_rev`: `"{value}={name}"`. -/
def Label.to_rev (l : Label) : Str := l.value ++ '=' :: l.name

/-- From `impl Display for Label`: `"{name}={value}"`. -/
def Label.display (l : Label) : Str := l.name ++ '=' :: l.value

/-- From `impl FromStr for Label`: split at the first `=`; each side is
lowercased by `Label::new`; `None` models the `InvalidLabel` error. -/
def Label.fromStr (s : Str) : Option Label :=
  (splitOnce '=' s).map (fun p => Label.new p.1 p.2)

/-- From `objects.rs`: `ObjectRef { collection, name }`. -/
structure ObjectRef where
  collection : Str
  name : Str
deriving DecidableEq, Repr

/-- From `ObjectRef::new`: lowercases both fields. -/
def ObjectRef.new (collection name : Str) : ObjectRef :=
  ⟨asciiLower collection, asciiLower name⟩

/-- From `meta.rs`: `Metadata`. The Rust `HashSet<Label>` is modelled as a
list (its iteration order made explicit by the list order). -/
structure Metadata where
  content_type : Str
  content_encoding : Str
  content_language : Str
  size : Nat
  labels : List Label
  offset_map : Str
deriving DecidableEq, Repr

/-- From `Metadata::default()`: empty strings, size 0, no labels. -/
def Metadata.default : Metadata := ⟨[], [], [], 0, [], []⟩

/-- From `errors.rs`: `CollectionError`. -/
inductive CollectionError where
  | PutObjectExistsNoReplace
  | ObjectNotFound
deriving DecidableEq, Repr

/-- From `errors.rs`: `MauveError` (payloads modelled as their message
strings; foreign error types carry no further structure the claims
need). -/
inductive MauveError where
  | ConfigError (msg : Str)
  | RocketError (msg : Str)
  | Utf8Error (msg : Str)
  | SledError (msg : Str)
  | SledTxError (msg : Str)
  | IoError (msg : Str)
  | SignalError (msg : Str)
  | InvalidLabel (msg : Str)
  | CollectionError (e : CollectionError)
  | BincodeError (msg : Str)
  | Oops (msg : Str)
deriving DecidableEq, Repr

/-- From `search/mod.rs`: `SearchError` — the only variant is
`NotYetExecuted`. -/
inductive SearchError where
  | NotYetExecuted
deriving DecidableEq, Repr

/-- The spec's §7 error taxonomy (which includes a `Timeout` kind). -/
inductive ErrorKind where
  | config | storage | utf8 | serialization | signal | invalidLabel
  | objectNotFound | objectExistsNoReplace | timeout | io | internal
deriving DecidableEq, Repr

/-- Classify each `MauveError` constructor under the spec's §7
taxonomy (`RocketError` and `IoError` are transport/filesystem
failures → `io`; `Oops` is the catch-all → `internal`). -/
def mauveErrorKind : MauveError → ErrorKind
  | .ConfigError _ => .config
  | .RocketError _ => .io
  | .Utf8Error _ => .utf8
  | .SledError _ => .storage
  | .SledTxError _ => .storage
  | .IoError _ => .io
  | .SignalError _ => .signal
  | .InvalidLabel _ => .invalidLabel
  | .CollectionError .ObjectNotFound => .objectNotFound
  | .CollectionError .PutObjectExistsNoReplace => .objectExistsNoReplace
  | .BincodeError _ => .serialization
  | .Oops _ => .internal

/-! ## Collection data-subtree point operations (`collection.rs`)

The data subtree is modelled as a lookup function from object idents
to stored bytes.  Operations that mutate the tree return the
post-state next to the Rust return value. -/

/-- State of one collection's `data` subtree. -/
abbrev DataState := Str → Option (List Nat)

/-- Pointwise update of a tree state. -/
def treeSet {v : Type} (st : Str → Option v) (k : Str) (x : Option v) :
    Str → Option v :=
  fun k' => if k' = k then x else st k'

/-- From `Collection::head_object`: presence check in the data subtree. -/
def head_object (st : DataState) (ident : Str) : Bool :=
  (st ident).isSome

/-- From `Collection::get_object`: the bytes, or `ObjectNotFound`. -/
def get_object (st : DataState) (ident : Str) :
    Except MauveError (List Nat) :=
  match st ident with
  | some bytes => .ok bytes
  | none => .error (.CollectionError .ObjectNotFound)

/-- From `Collection::put_object`: reads the prior value; if present and
`replace = false`, fails with `PutObjectExistsNoReplace` leaving the
tree untouched; otherwise inserts. `cname` is the collection name used
for the returned `ObjectRef`. -/
def put_object (cname : Str) (st : DataState) (ident : Str)
    (object : List Nat) (replace : Bool) :
    Except MauveError ObjectRef × DataState :=
  match st ident with
  | some _ =>
    if !replace then
      (.error (.CollectionError .PutObjectExistsNoReplace), st)
    else
      (.ok (ObjectRef.new cname ident), treeSet st ident (some object))
  | none =>
    (.ok (ObjectRef.new cname ident), treeSet st ident (some object))

/-- From `Collection::delete_object`: removes and returns the prior bytes;
deleting an absent object is a no-op returning `none`. -/
def delete_object (st : DataState) (ident : Str) :
    Option (List Nat) × DataState :=
  match st ident with
  | some old => (some old, treeSet st ident none)
  | none => (none, st)

/-! ## Indexer posting maintenance (`indexer.rs`)

The two index subtrees hold bincode-encoded `Vec<ObjectRef>` postings.
The indexer both writes and reads them with bincode, so `upsert` and
`downsert` are modelled at the decoded level: an index subtree is a
map from index-key strings to posting lists. -/

/-- State of one index subtree, at the decoded-posting level. -/
abbrev IndexState := Str → Option (List ObjectRef)

/-- From `CollectionIndexer::upsert`: absent key → one-element posting;
present key → decode, `push` the ObjectRef unconditionally
(duplicates possible), re-encode, write. -/
def upsert (target : IndexState) (labelstr : Str) (or : ObjectRef) :
    IndexState :=
  match target labelstr with
  | some old => treeSet target labelstr (some (old ++ [or]))
  | none => treeSet target labelstr (some [or])

/-- From `CollectionIndexer::downsert`: absent key → no-op; posting of
length 1 → remove the key; otherwise `retain` the entries different
from `or`, re-encode, write. -/
def downsert (target : IndexState) (labelstr : Str) (or : ObjectRef) :
    IndexState :=
  match target labelstr with
  | some old =>
    if old.length = 1 then
      treeSet target labelstr none
    else
      treeSet target labelstr (some (old.filter (fun x => x ≠ or)))
  | none => target

/-- Spec invariant I3: every index key that exists maps to a non-empty
posting list. -/
def invariantI3 (st : IndexState) : Prop :=
  ∀ k l, st k = some l → l ≠ []

/-! ## UTF-8 (`String::from_utf8` / `str::as_bytes`) -/

/-- UTF-8 encoding of one scalar value. -/
def utf8EncodeChar (c : Char) : List Nat :=
  let n := c.toNat
  if n < 0x80 then [n]
  else if n < 0x800 then [0xC0 + n / 64, 0x80 + n % 64]
  else if n < 0x10000 then
    [0xE0 + n / 4096, 0x80 + n / 64 % 64, 0x80 + n % 64]
  else
    [0xF0 + n / 262144, 0x80 + n / 4096 % 64, 0x80 + n / 64 % 64,
     0x80 + n % 64]

/-- From `str::as_bytes`. -/
def utf8Encode (s : Str) : List Nat := (s.map utf8EncodeChar).flatten

/-- From `String::from_utf8`: strict UTF-8 decoding — rejects bare
continuation bytes, overlong forms, surrogates and values above
`0x10FFFF`, exactly as Rust does. -/
def utf8Decode : List Nat → Option Str
  | [] => some []
  | b :: rest =>
    if b < 0x80 then
      (utf8Decode rest).map (fun s => Char.ofNat b :: s)
    else if b < 0xC2 then none
    else if b < 0xE0 then
      match rest with
      | c1 :: r =>
        if 0x80 ≤ c1 ∧ c1 < 0xC0 then
          (utf8Decode r).map
            (fun s => Char.ofNat ((b - 0xC0) * 64 + (c1 - 0x80)) :: s)
        else none
      | [] => none
    else if b < 0xF0 then
      match rest with
      | c1 :: c2 :: r =>
        if (if b = 0xE0 then 0xA0 else 0x80) ≤ c1 ∧
           c1 < (if b = 0xED then 0xA0 else 0xC0) ∧
           0x80 ≤ c2 ∧ c2 < 0xC0 then
          (utf8Decode r).map
            (fun s =>
              Char.ofNat
                ((b - 0xE0) * 4096 + (c1 - 0x80) * 64 + (c2 - 0x80)) :: s)
        else none
      | _ => none
    else if b < 0xF5 then
      match rest with
      | c1 :: c2 :: c3 :: r =>
        if (if b = 0xF0 then 0x90 else 0x80) ≤ c1 ∧
           c1 < (if b = 0xF4 then 0x90 else 0xC0) ∧
           0x80 ≤ c2 ∧ c2 < 0xC0 ∧ 0x80 ≤ c3 ∧ c3 < 0xC0 then
          (utf8Decode r).map
            (fun s =>
              Char.ofNat
                ((b - 0xF0) * 262144 + (c1 - 0x80) * 4096 +
                 (c2 - 0x80) * 64 + (c3 - 0x80)) :: s)
        else none
      | _ => none
    else none

/-- Strict lexicographic order on byte strings (sled's key order). -/
def bytesLtb : List Nat → List Nat → Bool
  | [], [] => false
  | [], _ :: _ => true
  | _ :: _, [] => false
  | a :: as, b :: bs => if a < b then true else if a = b then bytesLtb as bs else false

/-- From `Collection::list_objects`: `scan_prefix` over the data subtree
(modelled as its entries in ascending key order), then `filter_map`
decoding each key as UTF-8, dropping keys that fail to decode. -/
def list_objects (st : List (List Nat × List Nat)) (p : Str) : List Str :=
  (st.filter (fun kv => (utf8Encode p).isPrefixOf kv.1)).filterMap
    (fun kv => utf8Decode kv.1)

/-! ## bincode (indexer-side codec)

`indexer.rs` stores postings with `bincode::serialize(Vec<ObjectRef>)`
and reads metadata with `bincode::deserialize::<Metadata>`.  bincode's
default (legacy) format: `u64` little-endian fixed-width lengths,
strings as length-prefixed UTF-8 bytes, structs as their fields in
declaration order, sequences as a `u64` count followed by elements. -/

/-- Little-endian value of a byte list (first byte least significant). -/
def leNat (bs : List Nat) : Nat := bs.foldr (fun b acc => b + 256 * acc) 0

/-- Fixed-width 8-byte little-endian encoding of `n % 2^64`. -/
def u64le (n : Nat) : List Nat := (List.range 8).map (fun i => n / 256 ^ i % 256)

/-- Take exactly `n` bytes from the front, or fail (EOF). -/
def readBytes (n : Nat) (b : List Nat) : Option (List Nat × List Nat) :=
  if n ≤ b.length then some (b.take n, b.drop n) else none

/-- Read a bincode `u64`. -/
def readU64 (b : List Nat) : Option (Nat × List Nat) :=
  (readBytes 8 b).map (fun p => (leNat p.1, p.2))

/-- Read a bincode `String`: `u64` byte length, then that many bytes,
validated as UTF-8. -/
def readString (b : List Nat) : Option (Str × List Nat) :=
  match readU64 b with
  | some (n, rest) =>
    match readBytes n rest with
    | some (bs, rest2) => (utf8Decode bs).map (fun s => (s, rest2))
    | none => none
  | none => none

/-- Read a bincode `Label` (fields `name`, `value` in order). -/
def readLabel (b : List Nat) : Option (Label × List Nat) :=
  match readString b with
  | some (name, r1) =>
    match readString r1 with
    | some (value, r2) => some (⟨name, value⟩, r2)
    | none => none
  | none => none

/-- Read `n` consecutive bincode `Label`s. -/
def readLabels : Nat → List Nat → Option (List Label × List Nat)
  | 0, b => some ([], b)
  | n + 1, b =>
    match readLabel b with
    | some (l, rest) => (readLabels n rest).map (fun p => (l :: p.1, p.2))
    | none => none

/-- From `bincode::deserialize::<Metadata>` as called by
`CollectionIndexer::process_event`: three strings, a `u64`, a
length-prefixed label sequence (the `HashSet<Label>`), and a final
string. -/
def bincodeDeserializeMetadata (b : List Nat) : Option Metadata :=
  match readString b with
  | some (ct, r1) =>
    match readString r1 with
    | some (ce, r2) =>
      match readString r2 with
      | some (cl, r3) =>
        match readU64 r3 with
        | some (size, r4) =>
          match readU64 r4 with
          | some (count, r5) =>
            match readLabels count r5 with
            | some (labels, r6) =>
              match readString r6 with
              | some (om, _) => some ⟨ct, ce, cl, size, labels, om⟩
              | none => none
            | none => none
          | none => none
        | none => none
      | none => none
    | none => none
  | none => none

/-- bincode encoding of a `String`. -/
def bincodeString (s : Str) : List Nat :=
  u64le (utf8Encode s).length ++ utf8Encode s

/-- bincode encoding of one `ObjectRef` (fields in order). -/
def bincodeObjectRef (or : ObjectRef) : List Nat :=
  bincodeString or.collection ++ bincodeString or.name

/-- From `bincode::serialize(Vec<ObjectRef>)` as written into postings by
`CollectionIndexer::upsert`/`downsert`: `u64` count, then elements. -/
def bincodeSerializeObjectRefs (l : List ObjectRef) : List Nat :=
  u64le l.length ++ (l.map bincodeObjectRef).flatten

/-! ## CBOR (ciborium, the `MauveObject`-derive codec)

`macros/src/lib.rs` derives `to_object`/`from_object` from
`ciborium::into_writer` / `ciborium::from_reader`.  ciborium encodes
serde structs as definite-length CBOR maps with text field keys, in
declaration order, with minimal-width integer heads. -/

/-- Big-endian encoding in exactly `k` bytes. -/
def beBytes (k n : Nat) : List Nat :=
  ((List.range k).map (fun i => n / 256 ^ i % 256)).reverse

/-- Big-endian value of a byte list. -/
def beNat (bs : List Nat) : Nat := bs.foldl (fun acc b => acc * 256 + b) 0

/-- CBOR item head: 3-bit major type and minimally encoded argument. -/
def cborHead (major n : Nat) : List Nat :=
  if n < 24 then [major * 32 + n]
  else if n < 256 then [major * 32 + 24, n]
  else if n < 65536 then (major * 32 + 25) :: beBytes 2 n
  else if n < 4294967296 then (major * 32 + 26) :: beBytes 4 n
  else (major * 32 + 27) :: beBytes 8 n

/-- CBOR text string (major type 3). -/
def cborText (s : Str) : List Nat :=
  cborHead 3 (utf8Encode s).length ++ utf8Encode s

/-- CBOR encoding of a `Label`: a 2-entry map. -/
def cborLabel (l : Label) : List Nat :=
  cborHead 5 2 ++ cborText "name".data ++ cborText l.name ++
    cborText "value".data ++ cborText l.value

/-- From `Metadata::to_object` (the ciborium writer generated by the
`MauveObject` derive, used by `Collection::put_object_metadata`):
a 6-entry CBOR map with the fields in declaration order. -/
def metadataToObject (m : Metadata) : List Nat :=
  cborHead 5 6 ++
    cborText "content_type".data ++ cborText m.content_type ++
    cborText "content_encoding".data ++ cborText m.content_encoding ++
    cborText "content_language".data ++ cborText m.content_language ++
    cborText "size".data ++ cborHead 0 m.size ++
    cborText "labels".data ++ cborHead 4 m.labels.length ++
      (m.labels.map cborLabel).flatten ++
    cborText "offset_map".data ++ cborText m.offset_map

/-- Read a CBOR item head: major type and fully decoded argument.
Definite-length heads only (which is all ciborium ever emits);
reserved and indefinite additional-info values are rejected. -/
def cborReadHead : List Nat → Option (Nat × Nat × List Nat)
  | [] => none
  | b :: rest =>
    let major := b / 32
    let ai := b % 32
    if ai < 24 then some (major, ai, rest)
    else if ai = 24 then
      (readBytes 1 rest).map (fun p => (major, beNat p.1, p.2))
    else if ai = 25 then
      (readBytes 2 rest).map (fun p => (major, beNat p.1, p.2))
    else if ai = 26 then
      (readBytes 4 rest).map (fun p => (major, beNat p.1, p.2))
    else if ai = 27 then
      (readBytes 8 rest).map (fun p => (major, beNat p.1, p.2))
    else none

/-- Read a CBOR text string. -/
def cborReadText (b : List Nat) : Option (Str × List Nat) :=
  match cborReadHead b with
  | some (3, n, rest) =>
    match readBytes n rest with
    | some (bs, r) => (utf8Decode bs).map (fun s => (s, r))
    | none => none
  | _ => none

/-- Read one `ObjectRef` from CBOR: the 2-entry map
`{"collection": …, "name": …}` as ciborium itself writes it. -/
def cborReadObjectRef (b : List Nat) : Option (ObjectRef × List Nat) :=
  match cborReadHead b with
  | some (5, 2, rest) =>
    match cborReadText rest with
    | some (k1, r1) =>
      if k1 = "collection".data then
        match cborReadText r1 with
        | some (v1, r2) =>
          match cborReadText r2 with
          | some (k2, r3) =>
            if k2 = "name".data then
              (cborReadText r3).map (fun p => (⟨v1, p.1⟩, p.2))
            else none
          | none => none
        | none => none
      else none
    | none => none
  | _ => none

/-- Read `n` consecutive CBOR `ObjectRef`s. -/
def cborReadRefs : Nat → List Nat → Option (List ObjectRef × List Nat)
  | 0, b => some ([], b)
  | n + 1, b =>
    match cborReadObjectRef b with
    | some (or, rest) => (cborReadRefs n rest).map (fun p => (or :: p.1, p.2))
    | none => none

/-- From `ObjectRefs::from_object` (the ciborium reader generated by the
`MauveObject` derive, used by `Collection::search_label` to decode a
posting): the newtype deserializes as its inner `Vec<ObjectRef>`,
which requires a CBOR array; any other major type is a decode error. -/
def cborDecodeObjectRefs (b : List Nat) : Option (List ObjectRef) :=
  match cborReadHead b with
  | some (4, n, rest) => (cborReadRefs n rest).map (fun p => p.1)
  | _ => none

/-! ## Indexer worker event processing (`indexer.rs`) -/

/-- From `sled::Event` as delivered by the data-subtree subscription. -/
inductive SledEvent where
  | Insert (key : List Nat) (value : List Nat)
  | Remove (key : List Nat)

/-- The three subtrees an indexer worker touches: the metadata subtree
at the stored-bytes level (its codec is under scrutiny), and the two
index subtrees at the decoded-posting level (bincode is both written
and read there by the same worker). -/
structure IdxTrees where
  meta : Str → Option (List Nat)
  fwd : IndexState
  rev : IndexState

/-- From `CollectionIndexer::process_event`.  Returns the error the Rust
function would propagate (if any) together with the post-state of the
three subtrees; mutations performed before an error are kept, as in
the source (`meta_tree().remove(key)` precedes the metadata decode on
the `Remove` path).  In the source the loop upserts/downserts the
forward and reverse trees alternately per label; folding each tree
over the whole label list is equivalent since the trees are distinct. -/
def process_event (cname : Str) (st : IdxTrees) :
    SledEvent → Option MauveError × IdxTrees
  | .Insert key _ =>
    match utf8Decode key with
    | none => (some (.Utf8Error []), st)
    | some object =>
      let or := ObjectRef.new cname object
      match st.meta object with
      | none => (none, st)
      | some bytes =>
        match bincodeDeserializeMetadata bytes with
        | none => (some (.BincodeError []), st)
        | some m =>
          (none,
            { st with
              fwd := m.labels.foldl (fun t l => upsert t l.to_fwd or) st.fwd
              rev := m.labels.foldl (fun t l => upsert t l.to_rev or) st.rev })
  | .Remove key =>
    match utf8Decode key with
    | none => (some (.Utf8Error []), st)
    | some object =>
      let or := ObjectRef.new cname object
      match st.meta object with
      | none => (none, st)
      | some bytes =>
        let st1 := { st with meta := treeSet st.meta object none }
        match bincodeDeserializeMetadata bytes with
        | none => (some (.BincodeError []), st1)
        | some m =>
          (none,
            { st1 with
              fwd := m.labels.foldl (fun t l => downsert t l.to_fwd or) st1.fwd
              rev := m.labels.foldl (fun t l => downsert t l.to_rev or) st1.rev })

/-! ## Search engine (`search/search.rs`)

`perform_search` spawns one task per request label; each task reads
the forward-index posting for its label (`Collection::search_label`)
and inserts every decoded `ObjectRef` into the shared `includes` or
`excludes` set.  The caller waits until every task has dropped its
`Arc` clones — i.e. until all tasks have completed — then composes
`includes \ excludes` into a `HashSet` and decorates each survivor
with its metadata.  The model works at the decoded level: the forward
index as posting lists and the metadata subtree as decoded `Metadata`
(search-side reads use the `from_object` codec for both). -/

/-- From `search/mod.rs`: `SearchLabel`. -/
inductive SearchLabel where
  | Include (l : Label)
  | Exclude (l : Label)
deriving DecidableEq, Repr

/-- From `search/mod.rs`: `SearchRequest`. -/
structure SearchRequest where
  collection : Str
  labels : List SearchLabel
deriving DecidableEq, Repr

/-- From `search/mod.rs`: `FoundObject`. -/
structure FoundObject where
  object : ObjectRef
  meta : Metadata
deriving DecidableEq, Repr

/-- Decoded view of the state `perform_search` reads: the collection's
forward index and metadata subtree. -/
structure SearchState where
  fwd : IndexState
  meta : Str → Option Metadata

/-- From `Collection::search_label`'s contribution for one label: the
decoded posting under the label's forward key; a missing index key
contributes nothing (`Ok(None) => Ok(0)`). -/
def postingOf (fwd : IndexState) (l : Label) : List ObjectRef :=
  (fwd l.to_fwd).getD []

/-- The labels wrapped `Include` in request order. -/
def includeLabels (labels : List SearchLabel) : List Label :=
  labels.filterMap (fun sl => match sl with
    | .Include l => some l
    | .Exclude _ => none)

/-- The labels wrapped `Exclude` in request order. -/
def excludeLabels (labels : List SearchLabel) : List Label :=
  labels.filterMap (fun sl => match sl with
    | .Include _ => none
    | .Exclude l => some l)

/-- The contents of the concurrent `includes` (resp. `excludes`) set
after all tasks for the given labels have completed: every element of
every matching posting (the set collapses duplicates; kept as a list
here and deduplicated at composition time). -/
def labelUnion (fwd : IndexState) (ls : List Label) : List ObjectRef :=
  (ls.map (postingOf fwd)).flatten

/-- The surviving `results` set: the deduplicated includes after
`results.retain(|item| !excludes.contains(item))`. -/
def searchResultList (fwd : IndexState) (labels : List SearchLabel) :
    List ObjectRef :=
  ((labelUnion fwd (includeLabels labels)).dedup).filter
    (fun or => decide (or ∉ labelUnion fwd (excludeLabels labels)))

/-- The metadata-decoration loop at the end of `perform_search`: for
each surviving `ObjectRef`, `get_object_metadata` and push a
`FoundObject`; the first missing entry fails the whole search with
`ObjectNotFound` (the `?` operator). -/
def decorate (meta : Str → Option Metadata) :
    List ObjectRef → Except MauveError (List FoundObject)
  | [] => .ok []
  | or :: rest =>
    match meta or.name with
    | some m => (decorate meta rest).map (fun items => ⟨or, m⟩ :: items)
    | none => .error (.CollectionError .ObjectNotFound)

/-- From `Backend::perform_search` after all label tasks have completed:
compose the include/exclude sets, then fetch metadata for every
survivor.  The `HashSet` iteration order is unspecified in the source;
the model uses the deduplicated list. -/
def perform_search (st : SearchState) (req : SearchRequest) :
    Except MauveError (List FoundObject) :=
  decorate st.meta (searchResultList st.fwd req.labels)

/-! ## Concrete states used by witnesses and counterexamples -/

/-- From `ObjectRef { collection: "c", name: "n" }`. -/
def refCN : ObjectRef := ⟨"c".data, "n".data⟩

/-- From `ObjectRef { collection: "c", name: "d" }`. -/
def refCD : ObjectRef := ⟨"c".data, "d".data⟩

/-- An index state holding the single posting `[refCN]` under `"a=b"`. -/
def idxSingle : IndexState :=
  fun k => if k = "a=b".data then some [refCN] else none

/-- Indexer-worker state with 48 zero bytes of metadata stored under
key `"o"` (the bincode encoding of `Metadata::default()`). -/
def c9state : IdxTrees :=
  ⟨fun k => if k = "o".data then some (List.replicate 48 0) else none,
   fun _ => none, fun _ => none⟩

/-- Search label `species=cat` (already lowercase). -/
def lblInc : Label := ⟨"species".data, "cat".data⟩

/-- Search label `sound=woof` (already lowercase). -/
def lblExc : Label := ⟨"sound".data, "woof".data⟩

/-- Search-engine state: `species=cat → [refCN, refCD]`,
`sound=woof → [refCD]`; metadata present for `"n"` only. -/
def searchStW : SearchState :=
  ⟨fun k =>
     if k = lblInc.to_fwd then some [refCN, refCD]
     else if k = lblExc.to_fwd then some [refCD]
     else none,
   fun n => if n = "n".data then some Metadata.default else none⟩

/-- Search request exercising one include and one exclude label. -/
def searchReqW : SearchRequest :=
  ⟨"c".data, [.Include lblInc, .Exclude lblExc]⟩

/-! ## Helper lemmas -/

theorem splitOnce_eq_none_iff (sep : Char) (s : Str) :
    splitOnce sep s = none ↔ sep ∉ s := by
  induction s with
  | nil => simp [splitOnce]
  | cons x xs ih =>
    by_cases hx : x = sep
    · subst hx; simp [splitOnce]
    · simp only [splitOnce, if_neg hx, Option.map_eq_none']
      rw [ih]
      constructor
      · intro h hmem
        rcases List.mem_cons.mp hmem with h1 | h1
        · exact hx h1.symm
        · exact h h1
      · intro h hmem
        exact h (List.mem_cons_of_mem _ hmem)

theorem splitOnce_append (sep : Char) (a b : Str) (ha : sep ∉ a) :
    splitOnce sep (a ++ sep :: b) = some (a, b) := by
  induction a with
  | nil => simp [splitOnce]
  | cons x xs ih =>
    have hx : x ≠ sep := fun h => ha (h ▸ List.mem_cons_self x xs)
    have hxs : sep ∉ xs := fun h => ha (List.mem_cons_of_mem _ h)
    simp [splitOnce, if_neg hx, ih hxs]

/-- Pointwise characterisation of `upsert`: the touched key gets the
old posting (empty when absent) with `or` appended; others unchanged. -/
theorem upsert_apply (st : IndexState) (key : Str) (or : ObjectRef)
    (k : Str) :
    upsert st key or k =
      if k = key then some ((st key).getD [] ++ [or]) else st k := by
  cases hst : st key <;> simp [upsert, hst, treeSet]

/-- Pointwise characterisation of `downsert`. -/
theorem downsert_apply (st : IndexState) (key : Str) (or : ObjectRef)
    (k : Str) :
    downsert st key or k =
      match st key with
      | none => st k
      | some old =>
        if k = key then
          (if old.length = 1 then none
           else some (old.filter (fun x => x ≠ or)))
        else st k := by
  cases hst : st key with
  | none => simp [downsert, hst]
  | some old =>
    by_cases hlen : old.length = 1 <;> simp [downsert, hst, treeSet, hlen]

/-- From `upsert` keeps invariant I3: it only ever writes `old ++ [or]` or
`[or]`, both non-empty. -/
theorem upsert_preserves_I3 (st : IndexState) (key : Str)
    (or : ObjectRef) (hinv : invariantI3 st) :
    invariantI3 (upsert st key or) := by
  intro k l hkl
  rw [upsert_apply] at hkl
  by_cases hk : k = key
  · rw [if_pos hk] at hkl
    cases hkl
    simp
  · rw [if_neg hk] at hkl
    exact hinv k l hkl

/-- The metadata-decoration loop of `perform_search` succeeds on any
survivor list whose members all have metadata, and decorates each
member with exactly its stored metadata. -/
theorem decorate_ok (meta : Str → Option Metadata) :
    ∀ l : List ObjectRef, (∀ or ∈ l, (meta or.name).isSome) →
    ∃ items : List FoundObject,
      decorate meta l = Except.ok items ∧
      items.map FoundObject.object = l ∧
      ∀ it ∈ items, meta it.object.name = some it.meta := by
  intro l
  induction l with
  | nil =>
    intro _
    exact ⟨[], rfl, rfl, by simp⟩
  | cons a as ih =>
    intro h
    obtain ⟨m, hm⟩ := Option.isSome_iff_exists.mp (h a (List.mem_cons_self a as))
    obtain ⟨items, hrun, hmap, hmeta⟩ :=
      ih (fun or hor => h or (List.mem_cons_of_mem a hor))
    refine ⟨⟨a, m⟩ :: items, ?_, ?_, ?_⟩
    · simp only [decorate, hm, hrun]
      rfl
    · simp [hmap]
    · intro it hit
      rcases List.mem_cons.mp hit with h1 | h1
      · subst h1
        exact hm
      · exact hmeta it h1

/-- Filtering and decoding on the first components commutes with
projecting the keys first. -/
theorem filterMap_fst (st : List (List Nat × List Nat))
    (q : List Nat → Bool) (g : List Nat → Option Str) :
    (st.filter (fun kv => q kv.1)).filterMap (fun kv => g kv.1) =
      ((st.map Prod.fst).filter q).filterMap g := by
  induction st with
  | nil => rfl
  | cons a as ih =>
    by_cases hq : q a.1
    · cases hg : g a.1 <;> simp [hq, hg, ih]
    · simp [hq, ih]

/-! ## Claim theorems -/

/-- C7 counterexample: the round-trip claim fails as stated.  For the
label `{name: "a=b", value: "c"}` (constructible via `Label::new`,
which does not reject `=` in the name), the display string is
`"a=b=c"` and `from_str` splits at the **first** `=`, yielding
`{name: "a", value: "b=c"}`, not the original label. -/
theorem label_roundtrip_counterexample :
    Label.fromStr (Label.display ⟨"a=b".data, "c".data⟩) =
      some ⟨"a".data, "b=c".data⟩ ∧
    Label.fromStr (Label.display ⟨"a=b".data, "c".data⟩) ≠
      some (Label.new "a=b".data "c".data) := by
  constructor <;> decide

/-- C7 (amended): for every label whose **name contains no `=`**,
parsing the display string yields the label again after lowercase
normalisation of both fields; and for every string `s`, parsing fails
exactly when `s` contains no `=`. -/
theorem label_roundtrip (l : Label) (h : '=' ∉ l.name) :
    Label.fromStr (Label.display l) = some (Label.new l.name l.value) ∧
    ∀ s : Str, Label.fromStr s = none ↔ '=' ∉ s := by
  constructor
  · unfold Label.fromStr Label.display
    rw [splitOnce_append '=' l.name l.value h]
    rfl
  · intro s
    unfold Label.fromStr
    rw [Option.map_eq_none']
    exact splitOnce_eq_none_iff '=' s

/-- C7 witness: the amended round-trip at the concrete label
`{name: "Species", value: "CAT=MEOW"}`. -/
theorem label_roundtrip_witness :
    '=' ∉ ("Species".data : Str) ∧
    (Label.fromStr (Label.display ⟨"Species".data, "CAT=MEOW".data⟩) =
      some (Label.new "Species".data "CAT=MEOW".data) ∧
    ∀ s : Str, Label.fromStr s = none ↔ '=' ∉ s) :=
  ⟨by decide, label_roundtrip ⟨"Species".data, "CAT=MEOW".data⟩ (by decide)⟩

/-- C10: `downsert` behaves exactly as specified — absent posting:
no-op; posting of length 1: the index key is removed and no other key
changes; otherwise: the posting is replaced by itself with every entry
equal to the target filtered out, and no other key changes. -/
theorem downsert_cases (st : IndexState) (key : Str) (or : ObjectRef) :
    (st key = none → downsert st key or = st) ∧
    (∀ l, st key = some l → l.length = 1 →
      downsert st key or key = none ∧
      ∀ k, k ≠ key → downsert st key or k = st k) ∧
    (∀ l, st key = some l → l.length ≠ 1 →
      downsert st key or key = some (l.filter (fun x => x ≠ or)) ∧
      ∀ k, k ≠ key → downsert st key or k = st k) := by
  refine ⟨?_, ?_, ?_⟩
  · intro h
    unfold downsert
    rw [h]
  · intro l hl hlen
    constructor
    · rw [downsert_apply, hl]
      simp [hlen]
    · intro k hk
      rw [downsert_apply, hl]
      simp [hk]
  · intro l hl hlen
    constructor
    · rw [downsert_apply, hl]
      simp [hlen]
    · intro k hk
      rw [downsert_apply, hl]
      simp [hk]

/-- C10 witness: `downsert` on the one-element posting `[refCN]` under
`"a=b"` removes the index key and leaves other keys unchanged. -/
theorem downsert_cases_witness :
    idxSingle "a=b".data = some [refCN] ∧
    downsert idxSingle "a=b".data refCN "a=b".data = none ∧
    ∀ k, k ≠ "a=b".data → downsert idxSingle "a=b".data refCN k = idxSingle k :=
  ⟨by decide,
   (downsert_cases idxSingle "a=b".data refCN).2.1 [refCN] (by decide) (by decide)⟩

/-- C4: invariant I3 is **not** preserved by `downsert`.  Upserting the
same `ObjectRef` twice (possible: `upsert` appends unconditionally)
yields the posting `[refCN, refCN]`, which satisfies I3; `downsert` of
that posting takes the `len != 1` branch, filters out both copies, and
writes back an **empty** posting — violating I3 and the function's own
documentation ("if removing the ref would leave an empty list, the
label is removed"). -/
theorem downsert_stores_empty_posting :
    upsert (upsert (fun _ => none) "k=v".data refCN) "k=v".data refCN
        "k=v".data = some [refCN, refCN] ∧
    invariantI3 (upsert (upsert (fun _ => none) "k=v".data refCN) "k=v".data refCN) ∧
    downsert (upsert (upsert (fun _ => none) "k=v".data refCN) "k=v".data refCN)
        "k=v".data refCN "k=v".data = some [] ∧
    ¬ invariantI3
        (downsert (upsert (upsert (fun _ => none) "k=v".data refCN) "k=v".data refCN)
          "k=v".data refCN) := by
  refine ⟨by decide, ?_, by decide, ?_⟩
  · exact upsert_preserves_I3 _ _ _
      (upsert_preserves_I3 _ _ _ (fun k l h => by cases h))
  · intro hinv
    exact hinv "k=v".data [] (by decide) rfl

/-- C3: the search path cannot produce a `Timeout` outcome at all —
the search response error type has `NotYetExecuted` as its only
variant, and no `MauveError` constructor classifies as the spec's
`Timeout` kind (`perform_search` applies no deadline; the
`query_timeout_secs` setting is only read by the unfinished `query`
module, which is not reachable from the search route). -/
theorem search_path_no_timeout :
    (∀ e : SearchError, e = SearchError.NotYetExecuted) ∧
    (∀ e : MauveError, mauveErrorKind e ≠ ErrorKind.timeout) := by
  constructor
  · intro e
    cases e
    rfl
  · intro e
    cases e with
    | CollectionError ce => cases ce <;> simp [mauveErrorKind]
    | _ => simp [mauveErrorKind]

/-- C2: the collection CRUD contract.  Starting from a state where `n`
is absent: `put_object(n, b, false)` succeeds returning the
`ObjectRef`; then `head_object(n) = true` and `get_object(n) = b`; a
second `put_object(n, _, false)` fails with `PutObjectExistsNoReplace`
and leaves the tree unchanged; `put_object(n, b2, true)` succeeds and
`get_object(n) = b2`; `delete_object(n)` returns `Some(b2)` and
afterwards `head_object(n) = false`. -/
theorem collection_crud (cname : Str) (st : DataState) (n : Str)
    (b b2 : List Nat) (h : st n = none) :
    (put_object cname st n b false).1 = .ok (ObjectRef.new cname n) ∧
    head_object (put_object cname st n b false).2 n = true ∧
    get_object (put_object cname st n b false).2 n = .ok b ∧
    (∀ b3,
      (put_object cname (put_object cname st n b false).2 n b3 false).1 =
        .error (.CollectionError .PutObjectExistsNoReplace) ∧
      (put_object cname (put_object cname st n b false).2 n b3 false).2 =
        (put_object cname st n b false).2) ∧
    (put_object cname (put_object cname st n b false).2 n b2 true).1 =
      .ok (ObjectRef.new cname n) ∧
    get_object
      (put_object cname (put_object cname st n b false).2 n b2 true).2 n =
      .ok b2 ∧
    (delete_object
      (put_object cname (put_object cname st n b false).2 n b2 true).2 n).1 =
      some b2 ∧
    head_object
      (delete_object
        (put_object cname (put_object cname st n b false).2 n b2 true).2 n).2 n
      = false := by
  simp [put_object, get_object, head_object, delete_object, treeSet, h]

/-- C2 witness: the CRUD chain on the empty tree with `n = "n"`,
`b = [1]`, `b2 = [2]`. -/
theorem collection_crud_witness :
    ((fun _ => none : DataState) "n".data = none) ∧
    ((put_object "c".data (fun _ => none) "n".data [1] false).1 =
        .ok (ObjectRef.new "c".data "n".data) ∧
      head_object (put_object "c".data (fun _ => none) "n".data [1] false).2
        "n".data = true ∧
      get_object (put_object "c".data (fun _ => none) "n".data [1] false).2
        "n".data = .ok [1] ∧
      (∀ b3,
        (put_object "c".data
          (put_object "c".data (fun _ => none) "n".data [1] false).2
          "n".data b3 false).1 =
          .error (.CollectionError .PutObjectExistsNoReplace) ∧
        (put_object "c".data
          (put_object "c".data (fun _ => none) "n".data [1] false).2
          "n".data b3 false).2 =
          (put_object "c".data (fun _ => none) "n".data [1] false).2) ∧
      (put_object "c".data
        (put_object "c".data (fun _ => none) "n".data [1] false).2
        "n".data [2] true).1 = .ok (ObjectRef.new "c".data "n".data) ∧
      get_object
        (put_object "c".data
          (put_object "c".data (fun _ => none) "n".data [1] false).2
          "n".data [2] true).2 "n".data = .ok [2] ∧
      (delete_object
        (put_object "c".data
          (put_object "c".data (fun _ => none) "n".data [1] false).2
          "n".data [2] true).2 "n".data).1 = some [2] ∧
      head_object
        (delete_object
          (put_object "c".data
            (put_object "c".data (fun _ => none) "n".data [1] false).2
            "n".data [2] true).2 "n".data).2 "n".data = false) :=
  ⟨rfl, collection_crud "c".data (fun _ => none) "n".data [1] [2] rfl⟩

/-- C5: the metadata codecs disagree.  `put_object_metadata` stores
`Metadata::to_object(m)` — a CBOR map whose first bytes are the map
head `0xA6` and the text head `0x6C` of `"content_type"` — while the
indexer's `process_event` decodes the stored bytes with
`bincode::deserialize`, which reads those first 8 bytes as a
little-endian string length (≈ 8·10¹⁸) and fails with EOF.  Already at
`Metadata::default()` the decode fails, so no metadata ever decodes on
the indexer side. -/
theorem metadata_codec_mismatch :
    bincodeDeserializeMetadata (metadataToObject Metadata.default) = none := by
  decide

/-- C6: the posting codecs disagree.  `upsert` stores
`bincode::serialize(vec![refCN])`, whose first byte is `0x01` (the
low byte of the little-endian element count), while the search path's
`ObjectRefs::from_object` is a CBOR reader that requires an array
head; major type 0 (`0x01` = unsigned integer 1) is a decode error, so
no posting written by the indexer is ever readable by the search
path. -/
theorem posting_codec_mismatch :
    cborDecodeObjectRefs (bincodeSerializeObjectRefs [refCN]) = none := by
  decide

/-- C9 counterexample: the `Remove` path **does** mutate the metadata
subtree.  With `Metadata::default()`'s bincode bytes (48 zero bytes)
stored under `"o"`, processing `Remove("o")` removes the metadata
entry (`meta_tree().remove(key)` in the source), so the metadata
subtree is not left unchanged. -/
theorem process_event_remove_counterexample :
    c9state.meta "o".data = some (List.replicate 48 0) ∧
    (process_event "c".data c9state
      (.Remove (utf8Encode "o".data))).2.meta "o".data = none := by
  constructor <;> decide

/-- C9 (amended): on a `Remove` event whose key decodes as UTF-8, the
worker is a no-op when no metadata is stored under the key, and
otherwise **removes** the metadata entry for that key (using the
removed bytes to find the labels to downsert) while leaving every
other metadata entry unchanged; `Insert` events never mutate the
metadata subtree.  Metadata is thus removed by the worker's `Remove`
path in addition to `delete_metadata`. -/
theorem process_event_remove_meta (cname : Str) (st : IdxTrees)
    (key : List Nat) (obj : Str) (h : utf8Decode key = some obj) :
    (st.meta obj = none → process_event cname st (.Remove key) = (none, st)) ∧
    (∀ bytes, st.meta obj = some bytes →
      (process_event cname st (.Remove key)).2.meta obj = none ∧
      ∀ k, k ≠ obj → (process_event cname st (.Remove key)).2.meta k = st.meta k) ∧
    (∀ v, (process_event cname st (.Insert key v)).2.meta = st.meta) := by
  refine ⟨?_, ?_, ?_⟩
  · intro h0
    simp only [process_event, h, h0]
  · intro bytes hb
    cases hdec : bincodeDeserializeMetadata bytes with
    | none =>
      constructor
      · simp only [process_event, h, hb, hdec, treeSet]
        simp
      · intro k hk
        simp only [process_event, h, hb, hdec, treeSet]
        simp [hk]
    | some m =>
      constructor
      · simp only [process_event, h, hb, hdec, treeSet]
        simp
      · intro k hk
        simp only [process_event, h, hb, hdec, treeSet]
        simp [hk]
  · intro v
    cases hm : st.meta obj with
    | none => simp only [process_event, h, hm]
    | some bytes =>
      cases hdec : bincodeDeserializeMetadata bytes with
      | none => simp only [process_event, h, hm, hdec]
      | some m => simp only [process_event, h, hm, hdec]

/-- C9 witness: the amended statement at the concrete worker state
`c9state`. -/
theorem process_event_remove_witness :
    utf8Decode (utf8Encode "o".data) = some "o".data ∧
    ((c9state.meta "o".data = none →
        process_event "c".data c9state (.Remove (utf8Encode "o".data)) =
          (none, c9state)) ∧
      (∀ bytes, c9state.meta "o".data = some bytes →
        (process_event "c".data c9state
          (.Remove (utf8Encode "o".data))).2.meta "o".data = none ∧
        ∀ k, k ≠ "o".data →
          (process_event "c".data c9state
            (.Remove (utf8Encode "o".data))).2.meta k = c9state.meta k) ∧
      (∀ v, (process_event "c".data c9state
        (.Insert (utf8Encode "o".data) v)).2.meta = c9state.meta)) :=
  ⟨by decide,
   process_event_remove_meta "c".data c9state (utf8Encode "o".data)
     "o".data (by decide)⟩

/-- C1: `perform_search` returns exactly the union of the postings of
the Include labels minus the union of the postings of the Exclude
labels, each surviving `ObjectRef` exactly once; a request with no
labels returns the empty sequence.  (Survivors are assumed to have
metadata, matching the spec's "after convergence" premise — otherwise
the metadata-decoration loop fails the whole search.) -/
theorem perform_search_composition (st : SearchState) (req : SearchRequest)
    (hmeta : ∀ or ∈ searchResultList st.fwd req.labels,
      (st.meta or.name).isSome) :
    (∃ items, perform_search st req = .ok items ∧
      (items.map FoundObject.object).Nodup ∧
      (∀ or, or ∈ items.map FoundObject.object ↔
        ((∃ l ∈ includeLabels req.labels, or ∈ postingOf st.fwd l) ∧
         ¬ ∃ l ∈ excludeLabels req.labels, or ∈ postingOf st.fwd l)) ∧
      ∀ it ∈ items, st.meta it.object.name = some it.meta) ∧
    (req.labels = [] → perform_search st req = .ok []) := by
  constructor
  · obtain ⟨items, hrun, hmap, hm⟩ := decorate_ok st.meta _ hmeta
    refine ⟨items, hrun, ?_, ?_, hm⟩
    · rw [hmap]
      exact List.Nodup.filter _ (List.nodup_dedup _)
    · intro or
      rw [hmap]
      unfold searchResultList labelUnion
      rw [List.mem_filter]
      simp [List.mem_dedup, List.mem_flatten, List.mem_map]
  · intro h0
    unfold perform_search
    rw [h0]
    rfl

/-- C1 witness: searching `searchStW` with one include
(`species=cat`, posting `[refCN, refCD]`) and one exclude
(`sound=woof`, posting `[refCD]`) — the composition is `[refCN]`. -/
theorem perform_search_composition_witness :
    (∀ or ∈ searchResultList searchStW.fwd searchReqW.labels,
      (searchStW.meta or.name).isSome) ∧
    ((∃ items, perform_search searchStW searchReqW = .ok items ∧
      (items.map FoundObject.object).Nodup ∧
      (∀ or, or ∈ items.map FoundObject.object ↔
        ((∃ l ∈ includeLabels searchReqW.labels,
            or ∈ postingOf searchStW.fwd l) ∧
         ¬ ∃ l ∈ excludeLabels searchReqW.labels,
            or ∈ postingOf searchStW.fwd l)) ∧
      ∀ it ∈ items, searchStW.meta it.object.name = some it.meta) ∧
    (searchReqW.labels = [] → perform_search searchStW searchReqW = .ok [])) :=
  ⟨by decide, perform_search_composition searchStW searchReqW (by decide)⟩

/-- C8: `list_objects(p)` yields exactly the stored keys with prefix
`p` that decode as UTF-8 (invalid keys skipped, never an error), equal
to decoding the prefix-filtered key list, which is in ascending key
order whenever the subtree's entries are. -/
theorem list_objects_spec (st : List (List Nat × List Nat)) (p : Str)
    (hsort : st.Pairwise (fun a b => bytesLtb a.1 b.1 = true)) :
    (∀ s, s ∈ list_objects st p ↔
      ∃ kv ∈ st, (utf8Encode p).isPrefixOf kv.1 = true ∧
        utf8Decode kv.1 = some s) ∧
    list_objects st p =
      ((st.map Prod.fst).filter
        (fun k => (utf8Encode p).isPrefixOf k)).filterMap utf8Decode ∧
    ((st.map Prod.fst).filter
      (fun k => (utf8Encode p).isPrefixOf k)).Pairwise
      (fun a b => bytesLtb a b = true) := by
  refine ⟨?_, ?_, ?_⟩
  · intro s
    simp only [list_objects, List.mem_filterMap, List.mem_filter]
    constructor
    · rintro ⟨kv, ⟨hmem, hpre⟩, hdec⟩
      exact ⟨kv, hmem, hpre, hdec⟩
    · rintro ⟨kv, hmem, hpre, hdec⟩
      exact ⟨kv, ⟨hmem, hpre⟩, hdec⟩
  · exact filterMap_fst st (fun k => (utf8Encode p).isPrefixOf k) utf8Decode
  · exact (hsort.map Prod.fst (fun a b hab => hab)).filter _

/-- C8 witness: keys `[97]` (`"a"`), `[98, 255]` and `[255]` (both
invalid UTF-8) in ascending order with the empty prefix — the listing
is exactly `["a"]`, the invalid keys skipped. -/
theorem list_objects_spec_witness :
    ([([97], [0]), ([98, 255], [0]), ([255], ([0] : List Nat))] :
        List (List Nat × List Nat)).Pairwise
      (fun a b => bytesLtb a.1 b.1 = true) ∧
    ((∀ s, s ∈ list_objects [([97], [0]), ([98, 255], [0]), ([255], [0])] [] ↔
      ∃ kv ∈ ([([97], [0]), ([98, 255], [0]), ([255], [0])] :
          List (List Nat × List Nat)),
        (utf8Encode []).isPrefixOf kv.1 = true ∧ utf8Decode kv.1 = some s) ∧
    list_objects [([97], [0]), ([98, 255], [0]), ([255], [0])] [] =
      (([([97], [0]), ([98, 255], [0]), ([255], [0])] :
          List (List Nat × List Nat)).map Prod.fst |>.filter
        (fun k => (utf8Encode []).isPrefixOf k)).filterMap utf8Decode ∧
    ((([([97], [0]), ([98, 255], [0]), ([255], [0])] :
        List (List Nat × List Nat)).map Prod.fst).filter
      (fun k => (utf8Encode []).isPrefixOf k)).Pairwise
      (fun a b => bytesLtb a b = true)) :=
  ⟨by decide, list_objects_spec [([97], [0]), ([98, 255], [0]), ([255], [0])]
    [] (by decide)⟩

end Mauve
